import Mathlib

/-!
Verification of the scene-graph patch engine of `rbx-mcp` (`src/roblox.rs`)
against its natural-language specification.

The Rust code is shallowly embedded: `serde_json::Value` becomes `JValue`
(with `serde_json::Number`'s three-way representation `PosInt`/`NegInt`/`Float`
kept, finite IEEE doubles modelled as rationals), `rbx_dom_weak::WeakDom`
becomes `Dom` (an association list of references to instances plus a fresh
reference counter), and each Rust function of `roblox.rs` becomes a Lean
function of the same name.  IEEE `f64 -> f32` narrowing is elided (numeric
fields are carried as rationals); no claim below depends on float rounding.
A Rust `panic!`/`unwrap` abort is modelled as a distinguished `panicked`
outcome that propagates.
-/

namespace Rbx

/-! ## JSON values (serde_json model) -/

/-- Model of `serde_json::Number`: an unsigned 64-bit integer, a negative
signed 64-bit integer, or a finite IEEE double (modelled as a rational). -/
inductive JNum where
  | posInt (n : Nat)
  | negInt (i : Int)
  | float (q : ℚ)
deriving DecidableEq

/-- Largest value of Rust's `i64`, as a natural number. -/
def i64max : Nat := 2 ^ 63 - 1

/-- Model of `serde_json::Number::as_u64`: `Some` only for the `PosInt`
representation. -/
def JNum.as_u64 : JNum → Option Nat
  | .posInt n => some n
  | .negInt _ => none
  | .float _ => none

/-- Model of `serde_json::Number::as_i64`: `Some` for `NegInt`, and for
`PosInt` when it fits in `i64`; `None` for the `Float` representation. -/
def JNum.as_i64 : JNum → Option Int
  | .posInt n => if n ≤ i64max then some (n : Int) else none
  | .negInt i => some i
  | .float _ => none

/-- Model of `serde_json::Number::as_f64` (the `u64`/`i64` → `f64` rounding
for huge integers is elided; claims never depend on it). -/
def JNum.as_f64 : JNum → Option ℚ
  | .posInt n => some (n : ℚ)
  | .negInt i => some (i : ℚ)
  | .float q => some q

/-- Model of `serde_json::Value`.  Object fields are an association list
with the keys understood to be distinct. -/
inductive JValue where
  | null
  | bool (b : Bool)
  | num (n : JNum)
  | str (s : String)
  | arr (items : List JValue)
  | obj (fields : List (String × JValue))

/-- Model of `serde_json::Value::as_str`. -/
def JValue.as_str : JValue → Option String
  | .str s => some s
  | _ => none

/-- Model of `serde_json::Value::as_array`. -/
def JValue.as_array : JValue → Option (List JValue)
  | .arr xs => some xs
  | _ => none

/-- Model of `serde_json::Value::as_object`. -/
def JValue.as_object : JValue → Option (List (String × JValue))
  | .obj fs => some fs
  | _ => none

/-- Model of `serde_json::Value::as_f64`. -/
def JValue.as_f64 : JValue → Option ℚ
  | .num n => n.as_f64
  | _ => none

/-- Model of `serde_json::Value::as_i64`. -/
def JValue.as_i64 : JValue → Option Int
  | .num n => n.as_i64
  | _ => none

/-- Model of `serde_json::Map::get`: first (unique) matching key. -/
def objGet : List (String × JValue) → String → Option JValue
  | [], _ => none
  | (k, v) :: rest, key => if k = key then some v else objGet rest key

/-- Textual form of a JSON number, for the `Value::to_string` coercion
used by the `String` property branch (display of the rational model of a
float stands in for Rust's float formatting; no claim depends on it). -/
def numToString : JNum → String
  | .posInt n => toString n
  | .negInt i => toString i
  | .float q => toString q

mutual
/-- Model of `serde_json::Value::to_string` (compact JSON serialization;
string escaping elided — no claim depends on the exact output). -/
def jsonToString : JValue → String
  | .null => "null"
  | .bool true => "true"
  | .bool false => "false"
  | .num n => numToString n
  | .str s => "\"" ++ s ++ "\""
  | .arr xs => "[" ++ jsonListToString xs ++ "]"
  | .obj fs => "\x7b" ++ jsonFieldsToString fs ++ "\x7d"

/-- Comma-separated serialization of a JSON array's elements. -/
def jsonListToString : List JValue → String
  | [] => ""
  | [x] => jsonToString x
  | x :: y :: rest => jsonToString x ++ "," ++ jsonListToString (y :: rest)

/-- Comma-separated serialization of a JSON object's fields. -/
def jsonFieldsToString : List (String × JValue) → String
  | [] => ""
  | [(k, v)] => "\"" ++ k ++ "\":" ++ jsonToString v
  | (k, v) :: f :: rest =>
      "\"" ++ k ++ "\":" ++ jsonToString v ++ "," ++ jsonFieldsToString (f :: rest)
end

/-! ## Decoded property values (rbx_dom_weak::types model) -/

/-- Model of `rbx_types::Vector3` (components carried as rationals). -/
structure Vector3 where
  x : ℚ
  y : ℚ
  z : ℚ
deriving DecidableEq

/-- Model of `rbx_types::Matrix3` (three row vectors). -/
structure Matrix3 where
  x : Vector3
  y : Vector3
  z : Vector3
deriving DecidableEq

/-- Model of `rbx_types::Matrix3::identity`. -/
def Matrix3.identity : Matrix3 :=
  ⟨⟨1, 0, 0⟩, ⟨0, 1, 0⟩, ⟨0, 0, 1⟩⟩

/-- Model of `rbx_types::CFrame`. -/
structure CFrame where
  position : Vector3
  orientation : Matrix3
deriving DecidableEq

/-- Model of `rbx_types::UDim`. -/
structure UDim where
  scale : ℚ
  offset : Int
deriving DecidableEq

/-- Model of `rbx_types::UDim2`. -/
structure UDim2 where
  x : UDim
  y : UDim
deriving DecidableEq

/-- Model of `rbx_types::Color3`. -/
structure Color3 where
  r : ℚ
  g : ℚ
  b : ℚ
deriving DecidableEq

/-- Palette numbers of the external `rbx_types::BrickColor` enum (modelled
from the library at its interface boundary, per the spec's "known palette";
the claims rely only on `1` — the color "White" — being a valid entry). -/
def brickColorNumbers : List Nat :=
  [1, 2, 3, 5, 6, 9, 11, 12, 18, 21, 22, 23, 24, 25, 26, 27, 28, 29,
   36, 37, 38, 39, 40, 41, 42, 43, 44, 45, 47, 48, 49, 50,
   100, 101, 102, 103, 104, 105, 106, 107, 108, 110, 111, 112, 113, 115,
   116, 118, 119, 120, 121, 123, 124, 125, 126, 127, 128, 131, 133, 134,
   135, 136, 137, 138, 140, 141, 143, 145, 146, 147, 148, 149, 150, 151,
   153, 154, 157, 158, 168, 176, 178, 179, 180, 190, 191, 192, 193, 194,
   195, 196, 198, 199, 200, 208, 209, 210, 211, 212, 213, 216, 217, 218,
   219, 220, 221, 222, 223, 224, 225, 226, 232, 268,
   301, 302, 303, 304, 305, 306, 307, 308, 309, 310, 311, 312, 313, 314,
   315, 316, 317, 318, 319, 320, 321, 322, 323, 324, 325, 327, 328, 329,
   330, 331, 332, 333, 334, 335, 336, 337, 338, 339, 340, 341, 342, 343,
   344, 345, 346, 347, 348, 349, 350, 351, 352, 353, 354, 355, 356, 357,
   358, 359, 360, 361, 362, 363, 364, 365,
   1001, 1002, 1003, 1004, 1005, 1006, 1007, 1008, 1009, 1010, 1011, 1012,
   1013, 1014, 1015, 1016, 1017, 1018, 1019, 1020, 1021, 1022, 1023, 1024,
   1025, 1026, 1027, 1028, 1029, 1030, 1031, 1032]

/-- Model of `rbx_types::BrickColor::from_number` (a `BrickColor` is carried
by its palette number). -/
def brickColorFromNumber (n : Nat) : Option Nat :=
  if n ∈ brickColorNumbers then some n else none

/-- Model of `rbx_dom_weak::types::Variant`, restricted to the variants the
codec can produce. -/
inductive Variant where
  | str (s : String)
  | vector3 (v : Vector3)
  | cframe (c : CFrame)
  | brickColor (number : Nat)
  | bool (b : Bool)
  | float32 (q : ℚ)
  | int32 (i : Int)
  | enumItem (u : Nat)
  | color3 (c : Color3)
  | udim2 (u : UDim2)
deriving DecidableEq

/-! ## The property codec (`add_instance_to_weakdom`, lines 262-468) -/

/-- Outcome of decoding one `(type tag, JSON value)` pair: a decoded value,
a silent skip (unsupported tag), a returned error, or a Rust panic. -/
inductive DecodeResult where
  | ok (v : Variant)
  | skip
  | error (e : String)
  | panicked (e : String)
deriving DecidableEq

/-- Rust's `as_f64().unwrap_or(0.0)` on a JSON value (the `as f32` narrowing
is elided). -/
def jGetF (v : JValue) : ℚ := (v.as_f64).getD 0

/-- Rust's `as_i64().unwrap_or(0)` on a JSON value. -/
def jGetI (v : JValue) : Int := (v.as_i64).getD 0

/-- Rust's `obj.get(k).and_then(as_f64).unwrap_or(0.0)`. -/
def objGetF (fields : List (String × JValue)) (k : String) : ℚ :=
  ((objGet fields k).bind JValue.as_f64).getD 0

/-- Rust's `as i32` cast from `i64`: two's-complement wrap into
`[-2^31, 2^31)`. -/
def i64_as_i32 (n : Int) : Int := (n + 2 ^ 31) % 2 ^ 32 - 2 ^ 31

/-- Rust's `as u16` cast from `u64`: wrap modulo `2^16`. -/
def u64_as_u16 (n : Nat) : Nat := n % 65536

/-- The `"Vector3"` arm of the property codec (lines 273-296). -/
def decodeVector3 (value : JValue) : DecodeResult :=
  match value with
  | .arr vec =>
    if vec.length = 3 then
      DecodeResult.ok (Variant.vector3
        ⟨jGetF (vec.getD 0 .null), jGetF (vec.getD 1 .null), jGetF (vec.getD 2 .null)⟩)
    else DecodeResult.error "Vector3 must have 3 components"
  | .obj fields =>
    DecodeResult.ok (Variant.vector3
      ⟨objGetF fields "x", objGetF fields "y", objGetF fields "z"⟩)
  | _ => DecodeResult.error "Vector3 must be an array or object"

/-- The position extraction of the `"CFrame"` arm (lines 306-323). -/
def decodePosition (pv : JValue) : Except String Vector3 :=
  match pv.as_array with
  | some pos_arr =>
    if pos_arr.length = 3 then
      .ok ⟨jGetF (pos_arr.getD 0 .null), jGetF (pos_arr.getD 1 .null),
           jGetF (pos_arr.getD 2 .null)⟩
    else .error "CFrame position must have 3 components"
  | none =>
    match pv.as_object with
    | some pos_obj => .ok ⟨objGetF pos_obj "x", objGetF pos_obj "y", objGetF pos_obj "z"⟩
    | none => .error "CFrame position must be an array or object"

/-- The rotation extraction of the `"CFrame"` arm (lines 329-365): a
9-element array is a row-major matrix; a 3-element array, any other length,
a non-array, or an absent key all fall back to the identity matrix. -/
def decodeRotation (rv : Option JValue) : Matrix3 :=
  match rv with
  | some rot_val =>
    match rot_val.as_array with
    | some rot_arr =>
      if rot_arr.length = 9 then
        let values := rot_arr.map jGetF
        ⟨⟨values.getD 0 0, values.getD 1 0, values.getD 2 0⟩,
         ⟨values.getD 3 0, values.getD 4 0, values.getD 5 0⟩,
         ⟨values.getD 6 0, values.getD 7 0, values.getD 8 0⟩⟩
      else if rot_arr.length = 3 then Matrix3.identity
      else Matrix3.identity
    | none => Matrix3.identity
  | none => Matrix3.identity

/-- The `"CFrame"` arm of the property codec (lines 297-379). -/
def decodeCFrame (value : JValue) : DecodeResult :=
  match value with
  | .obj fields =>
    match objGet fields "position" with
    | some pos_val =>
      match decodePosition pos_val with
      | .error e => DecodeResult.error e
      | .ok pos =>
          DecodeResult.ok (Variant.cframe ⟨pos, decodeRotation (objGet fields "rotation")⟩)
    | none => DecodeResult.error "CFrame missing position"
  | _ => DecodeResult.error "CFrame must be an object with position and rotation"

/-- The `"String"` arm (lines 380-387): non-string values are coerced via
`Value::to_string`. -/
def decodeString (value : JValue) : DecodeResult :=
  match value with
  | .str s => DecodeResult.ok (Variant.str s)
  | _ => DecodeResult.ok (Variant.str (jsonToString value))

/-- The `"BrickColor"` arm (lines 388-399): `as_u64().unwrap_or(1) as u16`,
then a palette lookup. -/
def decodeBrickColor (value : JValue) : DecodeResult :=
  match value with
  | .num n =>
    let number := u64_as_u16 ((n.as_u64).getD 1)
    match brickColorFromNumber number with
    | some c => DecodeResult.ok (Variant.brickColor c)
    | none => DecodeResult.error ("Invalid BrickColor number: " ++ toString number)
  | _ => DecodeResult.error "BrickColor must be a number"

/-- The `"Bool"` arm (lines 400-406). -/
def decodeBool (value : JValue) : DecodeResult :=
  match value with
  | .bool b => DecodeResult.ok (Variant.bool b)
  | _ => DecodeResult.error "Bool must be a boolean"

/-- The `"Number" | "Float" | "Float32"` arm (lines 407-413). -/
def decodeFloat (value : JValue) : DecodeResult :=
  match value with
  | .num n => DecodeResult.ok (Variant.float32 ((n.as_f64).getD 0))
  | _ => DecodeResult.error "Number must be a numeric value"

/-- The `"Int" | "Int32"` arm (lines 414-420): `as_i64().unwrap_or(0) as i32`. -/
def decodeInt (value : JValue) : DecodeResult :=
  match value with
  | .num n => DecodeResult.ok (Variant.int32 (i64_as_i32 ((n.as_i64).getD 0)))
  | _ => DecodeResult.error "Int must be a numeric value"

/-- The `"Enum"` arm (lines 421-427): `as_u64().unwrap_or(1).try_into().unwrap()`
— the `unwrap` aborts (panics) when the value does not fit in `u32`. -/
def decodeEnum (value : JValue) : DecodeResult :=
  match value with
  | .num n =>
    let u := (n.as_u64).getD 1
    if u < 2 ^ 32 then DecodeResult.ok (Variant.enumItem u)
    else DecodeResult.panicked "out of range integral type conversion attempted"
  | _ => DecodeResult.error "Enum must be a numeric value"

/-- The `"Color3"` arm (lines 428-442). -/
def decodeColor3 (value : JValue) : DecodeResult :=
  match value with
  | .arr vec =>
    if vec.length = 3 then
      DecodeResult.ok (Variant.color3
        ⟨jGetF (vec.getD 0 .null), jGetF (vec.getD 1 .null), jGetF (vec.getD 2 .null)⟩)
    else DecodeResult.error "Color3 must have 3 components"
  | _ => DecodeResult.error "Color3 must be an array"

/-- The `"UDim2"` arm (lines 443-462). -/
def decodeUDim2 (value : JValue) : DecodeResult :=
  match value with
  | .arr vec =>
    if vec.length = 4 then
      DecodeResult.ok (Variant.udim2
        ⟨⟨jGetF (vec.getD 0 .null), i64_as_i32 (jGetI (vec.getD 1 .null))⟩,
         ⟨jGetF (vec.getD 2 .null), i64_as_i32 (jGetI (vec.getD 3 .null))⟩⟩)
    else DecodeResult.error "UDim2 must have 4 components [xScale, xOffset, yScale, yOffset]"
  | _ => DecodeResult.error "UDim2 must be an array"

/-- The type-tag dispatch of the property codec (the `match prop.type_name.as_str()`
at lines 272-466); the wildcard arm is `continue`, i.e. a silent skip. -/
def decodeVariant (type_name : String) (value : JValue) : DecodeResult :=
  if type_name = "Vector3" then decodeVector3 value
  else if type_name = "CFrame" then decodeCFrame value
  else if type_name = "String" then decodeString value
  else if type_name = "BrickColor" then decodeBrickColor value
  else if type_name = "Bool" then decodeBool value
  else if type_name = "Number" ∨ type_name = "Float" ∨ type_name = "Float32" then
    decodeFloat value
  else if type_name = "Int" ∨ type_name = "Int32" then decodeInt value
  else if type_name = "Enum" then decodeEnum value
  else if type_name = "Color3" then decodeColor3 value
  else if type_name = "UDim2" then decodeUDim2 value
  else DecodeResult.skip

/-- The type tags the codec handles (every other tag hits the wildcard arm). -/
def supportedTags : List String :=
  ["Vector3", "CFrame", "String", "BrickColor", "Bool",
   "Number", "Float", "Float32", "Int", "Int32", "Enum", "Color3", "UDim2"]

/-- A JSON property as carried in the patch document. -/
structure JsonProperty where
  type_name : String
  value : JValue

/-- The `Script`/`LocalScript`/`ModuleScript` check (lines 257-259). -/
def isScript (className : String) : Bool :=
  className == "Script" || className == "LocalScript" || className == "ModuleScript"

/-- The `Source`-on-a-script special case (lines 264-269): when it yields a
string the property is added directly, bypassing the type-tag dispatch. -/
def sourceOverride (is_script : Bool) (prop_name : String) (v : JValue) : Option String :=
  if is_script ∧ prop_name = "Source" then v.as_str else none

/-- Decoding of one named property of an instance description: the `Source`
special case first, then the type-tag dispatch (lines 262-466). -/
def decodeProperty (is_script : Bool) (prop_name : String) (prop : JsonProperty) :
    DecodeResult :=
  match sourceOverride is_script prop_name prop.value with
  | some s => DecodeResult.ok (Variant.str s)
  | none => decodeVariant prop.type_name prop.value

/-! ## The scene graph store (`rbx_dom_weak::WeakDom` model) -/

/-- One instance of the scene graph. -/
structure Inst where
  className : String
  name : String
  props : List (String × Variant)
  children : List Nat
deriving DecidableEq

/-- The scene graph: an association list from references to instances, plus
the next reference the store will assign. -/
structure Dom where
  insts : List (Nat × Inst)
  nextRef : Nat
deriving DecidableEq

/-- First-match lookup in the reference table. -/
def lookupRef : List (Nat × Inst) → Nat → Option Inst
  | [], _ => none
  | (q, i) :: rest, r => if q = r then some i else lookupRef rest r

/-- Model of `WeakDom::get_by_ref`. -/
def get_by_ref (d : Dom) (r : Nat) : Option Inst := lookupRef d.insts r

/-- Straight total variant of `get_by_ref` for the places where the Rust
code calls `.unwrap()` on it; on a dangling reference (where Rust would
panic) it yields an inert empty instance.  All theorems below work with
graphs on which the panic branch is unreachable. -/
def getInst (d : Dom) (r : Nat) : Inst := (get_by_ref d r).getD ⟨"", "", [], []⟩

/-- Append a child reference to an instance's children list. -/
def addChild (i : Inst) (c : Nat) : Inst := { i with children := i.children ++ [c] }

/-- Model of `WeakDom::insert`: assign the next fresh reference, append the
new instance to the table, and link it into the parent's children. -/
def Dom.insert (d : Dom) (parent : Nat) (b : Inst) : Dom × Nat :=
  let r := d.nextRef
  let updated := d.insts.map (fun pi => if pi.1 = parent then (pi.1, addChild pi.2 r) else pi)
  (⟨updated ++ [(r, b)], r + 1⟩, r)

/-- References of the subtree rooted at `r`, collected with fuel (the graph
is a tree in every reachable state, so `d.insts.length` steps suffice). -/
def subtreeRefs (d : Dom) (fuel : Nat) (r : Nat) : List Nat :=
  match fuel with
  | 0 => [r]
  | f + 1 => r :: ((getInst d r).children.map (subtreeRefs d f)).flatten

/-- Model of `WeakDom::destroy`: drop the whole subtree of `r` and unlink
every destroyed reference from the surviving children lists. -/
def Dom.destroy (d : Dom) (r : Nat) : Dom :=
  let doomed := subtreeRefs d d.insts.length r
  ⟨(d.insts.filter (fun pi => !(doomed.contains pi.1))).map
      (fun pi => (pi.1, { pi.2 with children := pi.2.children.filter (fun c => !(doomed.contains c)) })),
   d.nextRef⟩

/-- Store invariant: every assigned reference is below the fresh counter.
`rbx_dom_weak` maintains this by construction (references are never reused). -/
def DomWF (d : Dom) : Prop := ∀ p ∈ d.insts, p.1 < d.nextRef

/-! ## Patch documents -/

/-- Model of the `JsonInstance` description in the patch document. -/
inductive JsonInstance where
  | mk (className : String) (name : String)
       (properties : List (String × JsonProperty))
       (children : List JsonInstance)
       (target_parent : Option String)

/-- Class tag of an instance description. -/
def JsonInstance.className : JsonInstance → String
  | .mk c _ _ _ _ => c

/-- Name of an instance description. -/
def JsonInstance.name : JsonInstance → String
  | .mk _ n _ _ _ => n

/-- Properties of an instance description. -/
def JsonInstance.properties : JsonInstance → List (String × JsonProperty)
  | .mk _ _ ps _ _ => ps

/-- Nested children of an instance description. -/
def JsonInstance.children : JsonInstance → List JsonInstance
  | .mk _ _ _ cs _ => cs

/-- Optional target-parent path of an instance description. -/
def JsonInstance.target_parent : JsonInstance → Option String
  | .mk _ _ _ _ tp => tp

/-- Model of the `Modification` patch document. -/
structure Modification where
  add : List JsonInstance
  subtract : List String

/-! ## Path resolver (`find_instance_by_path`, lines 170-217) -/

/-- Rust's `str::split('/')` on the list of characters. -/
def splitChar (c : Char) : List Char → List String
  | [] => [""]
  | a :: rest =>
    let r := splitChar c rest
    if a = c then "" :: r
    else
      match r with
      | [] => [String.mk [a]]
      | s :: tail => String.mk (a :: s.data) :: tail

/-- Rust's `path.split('/').collect()`. -/
def pathSplit (path : String) : List String := splitChar '/' path.data

/-- First direct child of `cur` whose name matches, in child order (the
inner loop of lines 200-208; the Rust `get_by_ref(..).unwrap()` is `getInst`). -/
def findChildByName (d : Dom) : List Nat → String → Option Nat
  | [], _ => none
  | c :: rest, name =>
    if (getInst d c).name = name then some c else findChildByName d rest name

/-- Model of `find_service` (lines 220-229). -/
def find_service (d : Dom) (parent : Nat) (name : String) : Option Nat :=
  findChildByName d (getInst d parent).children name

/-- The segment-walking loop of `find_instance_by_path` (lines 197-214). -/
def walkParts (d : Dom) : Nat → List String → Option Nat
  | cur, [] => some cur
  | cur, part :: rest =>
    match findChildByName d (getInst d cur).children part with
    | some c => walkParts d c rest
    | none => none

/-- Model of `find_instance_by_path` (lines 170-217).  Note the `DataModel`
branch resumes the walk at `path_parts[2..]` — exactly as the source slices. -/
def find_instance_by_path (d : Dom) (start : Nat) (path : String) : Option Nat :=
  let parts := pathSplit path
  if parts = [] ∨ (parts.length = 1 ∧ parts.getD 0 "" = "") then some start
  else if parts.getD 0 "" = "DataModel" then
    if parts.length = 1 then some start
    else walkParts d start (parts.drop 2)
  else
    match find_service d start (parts.getD 0 "") with
    | some id => walkParts d id (parts.drop 1)
    | none => none

/-! ## Service provisioner (`find_or_create_service`, lines 149-167) -/

/-- The child scan of `find_or_create_service` (lines 153-160): a dangling
child reference is an error, a matching name returns that child. -/
def findServiceChildE (d : Dom) : List Nat → String → Except String (Option Nat)
  | [], _ => .ok none
  | c :: rest, name =>
    match get_by_ref d c with
    | none => .error "Invalid child reference"
    | some i => if i.name = name then .ok (some c) else findServiceChildE d rest name

/-- Model of `find_or_create_service` (lines 149-167): find an existing
direct child of that name, else create `InstanceBuilder::new(name).with_name(name)`
under the parent. -/
def find_or_create_service (d : Dom) (parent : Nat) (name : String) :
    Dom × Except String Nat :=
  match get_by_ref d parent with
  | none => (d, .error "Invalid parent reference")
  | some p =>
    match findServiceChildE d p.children name with
    | .error e => (d, .error e)
    | .ok (some c) => (d, .ok c)
    | .ok none =>
      let dr := d.insert parent ⟨name, name, [], []⟩
      (dr.1, .ok dr.2)

/-- The fixed roster of common services (lines 65-68). -/
def commonServices : List String :=
  ["StarterPlayer", "Lighting", "ReplicatedStorage", "ServerScriptService",
   "ServerStorage", "SoundService", "Chat", "Teams"]

/-- First-match lookup in the `service_refs` table (its keys are distinct,
mirroring the `HashMap`). -/
def lookupAssoc : List (String × Nat) → String → Option Nat
  | [], _ => none
  | (k, v) :: rest, t => if k = t then some v else lookupAssoc rest t

/-- Provision a list of services under one parent, accumulating their refs
(the loop of lines 71-74); an error stops the whole application as the
Rust `?` does. -/
def provisionList (d : Dom) (parent : Nat) (names : List String)
    (acc : List (String × Nat)) : Dom × Except String (List (String × Nat)) :=
  match names with
  | [] => (d, .ok acc)
  | n :: rest =>
    match find_or_create_service d parent n with
    | (d', .ok r) => provisionList d' parent rest (acc ++ [(n, r)])
    | (d', .error e) => (d', .error e)

/-- The provisioning prologue of `json_to_weakdom` (lines 60-86): Workspace,
the common services, and the two `StarterPlayer` nested containers.  Returns
the `service_refs` table and the Workspace reference. -/
def provision (d : Dom) (root : Nat) :
    Dom × Except String (List (String × Nat) × Nat) :=
  match find_or_create_service d root "Workspace" with
  | (d1, .error e) => (d1, .error e)
  | (d1, .ok ws) =>
    match provisionList d1 root commonServices [("Workspace", ws)] with
    | (d2, .error e) => (d2, .error e)
    | (d2, .ok refs) =>
      match lookupAssoc refs "StarterPlayer" with
      | none => (d2, .ok (refs, ws))
      | some sp =>
        match find_or_create_service d2 sp "StarterPlayerScripts" with
        | (d3, .error e) => (d3, .error e)
        | (d3, .ok sps) =>
          match find_or_create_service d3 sp "StarterCharacterScripts" with
          | (d4, .error e) => (d4, .error e)
          | (d4, .ok scs) =>
            (d4, .ok (refs ++ [("StarterPlayerScripts", sps),
                               ("StarterCharacterScripts", scs)], ws))

/-! ## Modification applier (`json_to_weakdom`, lines 51-146) -/

/-- Outcome of a stateful step of the applier: success, a returned error, or
a Rust panic that aborts the process. -/
inductive RResult (α : Type) where
  | ok (a : α)
  | err (e : String)
  | panicked (e : String)
deriving DecidableEq

/-- The property-building loop of `add_instance_to_weakdom` (lines 262-468),
accumulating the builder's properties; a decode error or panic aborts it. -/
def buildProps (is_script : Bool) :
    List (String × JsonProperty) → RResult (List (String × Variant))
  | [] => .ok []
  | (pname, prop) :: rest =>
    match decodeProperty is_script pname prop with
    | .ok v =>
      match buildProps is_script rest with
      | .ok ps => .ok ((pname, v) :: ps)
      | .err e => .err e
      | .panicked e => .panicked e
    | .skip => buildProps is_script rest
    | .error e => .err e
    | .panicked e => .panicked e

/-- Model of `add_instance_to_weakdom` (lines 249-475): decode all
properties, then insert the built instance under `parent`.  On a property
error nothing is inserted. -/
def add_instance_to_weakdom (d : Dom) (j : JsonInstance) (parent : Nat) :
    Dom × RResult Nat :=
  match buildProps (isScript j.className) j.properties with
  | .ok ps =>
    let (d', r) := d.insert parent ⟨j.className, j.name, ps, []⟩
    (d', .ok r)
  | .err e => (d, .err e)
  | .panicked e => (d, .panicked e)

mutual
/-- Model of `process_instance_with_children` (lines 232-246): insert the
instance, then its children depth-first; a failing child leaves the already
inserted part of the subtree in the graph. -/
def process_instance_with_children (d : Dom) (j : JsonInstance) (parent : Nat) :
    Dom × RResult Nat :=
  match add_instance_to_weakdom d j parent with
  | (d', RResult.ok r) =>
    match processChildren d' j.children r with
    | (d'', RResult.ok _) => (d'', RResult.ok r)
    | (d'', RResult.err e) => (d'', RResult.err e)
    | (d'', RResult.panicked e) => (d'', RResult.panicked e)
  | (d', RResult.err e) => (d', RResult.err e)
  | (d', RResult.panicked e) => (d', RResult.panicked e)
termination_by sizeOf j
decreasing_by cases j; simp [JsonInstance.children]; omega

/-- The child loop of `process_instance_with_children` (lines 238-243). -/
def processChildren (d : Dom) (cs : List JsonInstance) (parent : Nat) :
    Dom × RResult Unit :=
  match cs with
  | [] => (d, RResult.ok ())
  | c :: rest =>
    match process_instance_with_children d c parent with
    | (d', RResult.ok _) => processChildren d' rest parent
    | (d', RResult.err e) => (d', RResult.err e)
    | (d', RResult.panicked e) => (d', RResult.panicked e)
termination_by sizeOf cs
decreasing_by all_goals simp <;> omega
end

/-- The effective-parent selection of the add loop (lines 112-138): an exact
`service_refs` hit, else a path resolution from the root, else Workspace. -/
def effectiveParent (d : Dom) (root : Nat) (refs : List (String × Nat)) (ws : Nat)
    (j : JsonInstance) : Nat :=
  match j.target_parent with
  | some t =>
    match lookupAssoc refs t with
    | some r => r
    | none =>
      match find_instance_by_path d root t with
      | some id => id
      | none => ws
  | none => ws

/-- The add loop of `json_to_weakdom` (lines 107-142). -/
def applyAdds (d : Dom) (root : Nat) (refs : List (String × Nat)) (ws : Nat) :
    List JsonInstance → Dom × RResult Unit
  | [] => (d, RResult.ok ())
  | j :: rest =>
    match process_instance_with_children d j (effectiveParent d root refs ws j) with
    | (d', RResult.ok _) => applyAdds d' root refs ws rest
    | (d', RResult.err e) => (d', RResult.err e)
    | (d', RResult.panicked e) => (d', RResult.panicked e)

/-- Model of `remove_instance` (lines 478-490). -/
def remove_instance (d : Dom) (r : Nat) : Except String Dom :=
  match get_by_ref d r with
  | none => .error "Instance not found"
  | some _ => .ok (d.destroy r)

/-- One iteration of the subtract loop (lines 91-103): an unresolvable path
or a failing removal is only a warning and the graph is left unchanged. -/
def applySubtractOne (d : Dom) (root : Nat) (path : String) : Dom :=
  match find_instance_by_path d root path with
  | some id =>
    match remove_instance d id with
    | .ok d' => d'
    | .error _ => d
  | none => d

/-- The subtract loop of `json_to_weakdom` (lines 88-104), in order. -/
def applySubtracts (d : Dom) (root : Nat) : List String → Dom
  | [] => d
  | p :: rest => applySubtracts (applySubtractOne d root p) root rest

/-- Model of `json_to_weakdom` (lines 51-146): provision the well-known
services, process every subtract, then process every add. -/
def json_to_weakdom (d : Dom) (m : Modification) (root : Nat) : Dom × RResult Unit :=
  match provision d root with
  | (d1, .error e) => (d1, .err e)
  | (d1, .ok (refs, ws)) =>
    let d2 := applySubtracts d1 root m.subtract
    applyAdds d2 root refs ws m.add

/-! ## Specification predicates and concrete graphs used by the theorems -/

/-- The spec's "missing or malformed rotation": the `rotation` key is absent,
not an array, or an array whose length is not 9. -/
def rotationDefaulted : Option JValue → Prop
  | none => True
  | some rv =>
    match rv.as_array with
    | none => True
    | some arr => arr.length ≠ 9

/-- An instance survives, possibly with extra children appended. -/
def InstLE (i i' : Inst) : Prop :=
  i'.className = i.className ∧ i'.name = i.name ∧ i'.props = i.props ∧
    ∃ t, i'.children = i.children ++ t

/-- Graph `d'` extends graph `d`: every instance of `d` is still present,
unchanged except for appended children (the applier's add phase never
destroys or rewrites committed instances). -/
def DomExtends (d' d : Dom) : Prop :=
  d.nextRef ≤ d'.nextRef ∧
  ∀ r i, get_by_ref d r = some i → ∃ i', get_by_ref d' r = some i' ∧ InstLE i i'

/-- A two-node graph: the root (reference 0, named "DataModel") with a single
direct child (reference 1) named "Workspace". -/
def rootWsDom : Dom :=
  ⟨[(0, ⟨"DataModel", "DataModel", [], [1]⟩),
    (1, ⟨"Workspace", "Workspace", [], []⟩)], 2⟩

/-- An add description targeting the nonexistent path "Workspace/House". -/
def houseTargetInstance : JsonInstance :=
  .mk "Part" "Base" [] [] (some "Workspace/House")

/-- An add description with no target parent and no properties. -/
def plainPartInstance : JsonInstance :=
  .mk "Part" "Base" [] [] none

/-- An add description with a malformed `Bool` property (decode error). -/
def badBoolInstance : JsonInstance :=
  .mk "Part" "Bad" [("Anchored", ⟨"Bool", .str "x"⟩)] [] none

/-- The graph after processing `plainPartInstance` under Workspace in
`rootWsDom`. -/
def afterPlainPart : Dom :=
  (process_instance_with_children rootWsDom plainPartInstance
      (effectiveParent rootWsDom 0 [("Workspace", 1)] 1 plainPartInstance)).1

/-- The graph after `find_or_create_service rootWsDom 0 "Lighting"`. -/
def afterLighting : Dom := (find_or_create_service rootWsDom 0 "Lighting").1

/-- A well-formed child description with no properties. -/
def wallChildInstance : JsonInstance :=
  .mk "Part" "Wall" [] [] none

/-- A nested add description whose root ("House") and first child ("Wall")
materialize but whose second child carries a malformed Bool property, so
its processing fails mid-subtree. -/
def houseWithBadChild : JsonInstance :=
  .mk "Model" "House" [] [wallChildInstance, badBoolInstance] none

/-- The graph after inserting just the "House" root (reference 2) under
Workspace in `rootWsDom` — the ancestor commit point of the failing subtree. -/
def afterHouseRoot : Dom := (add_instance_to_weakdom rootWsDom houseWithBadChild 1).1

/-- The graph after additionally processing the "Wall" child (reference 3)
under "House" — the earlier-sibling commit point of the failing subtree. -/
def afterWall : Dom :=
  (process_instance_with_children afterHouseRoot wallChildInstance 2).1

/-! ## Store lemmas -/

theorem lookupRef_some_mem (l : List (Nat × Inst)) (r : Nat) (i : Inst)
    (h : lookupRef l r = some i) : (r, i) ∈ l := by
  induction l with
  | nil => simp [lookupRef] at h
  | cons p rest ih =>
    obtain ⟨q, j⟩ := p
    by_cases hq : q = r
    · subst hq
      simp [lookupRef] at h
      simp [h]
    · simp [lookupRef, hq] at h
      exact List.mem_cons_of_mem _ (ih h)

theorem key_lt_of_get (d : Dom) (r : Nat) (i : Inst) (hwf : DomWF d)
    (h : get_by_ref d r = some i) : r < d.nextRef :=
  hwf (r, i) (lookupRef_some_mem d.insts r i h)

theorem lookupRef_fresh_none (d : Dom) (hwf : DomWF d) :
    lookupRef d.insts d.nextRef = none := by
  cases h : lookupRef d.insts d.nextRef with
  | none => rfl
  | some i =>
    have := hwf (d.nextRef, i) (lookupRef_some_mem d.insts d.nextRef i h)
    omega

theorem lookupRef_append (l1 l2 : List (Nat × Inst)) (r : Nat) :
    lookupRef (l1 ++ l2) r =
      match lookupRef l1 r with
      | some i => some i
      | none => lookupRef l2 r := by
  induction l1 with
  | nil => simp [lookupRef]
  | cons p rest ih =>
    obtain ⟨q, j⟩ := p
    by_cases hq : q = r <;> simp [lookupRef, hq, ih]

theorem lookupRef_mapAdd (l : List (Nat × Inst)) (parent c r : Nat) :
    lookupRef (l.map (fun pi => if pi.1 = parent then (pi.1, addChild pi.2 c) else pi)) r =
      (lookupRef l r).map (fun i => if r = parent then addChild i c else i) := by
  induction l with
  | nil => simp [lookupRef]
  | cons p rest ih =>
    obtain ⟨q, j⟩ := p
    simp only [List.map_cons]
    by_cases hq : q = parent
    · rw [show (if (q, j).1 = parent then ((q, j).1, addChild (q, j).2 c) else (q, j)) =
            (q, addChild j c) by simp [hq]]
      by_cases hr : q = r
      · have hrp : r = parent := hr ▸ hq
        simp [lookupRef, hr, hrp]
      · simp [lookupRef, hr, ih]
    · rw [show (if (q, j).1 = parent then ((q, j).1, addChild (q, j).2 c) else (q, j)) =
            (q, j) by simp [hq]]
      by_cases hr : q = r
      · have hrp : ¬r = parent := by rw [← hr]; exact hq
        simp [lookupRef, hr, hrp]
      · simp [lookupRef, hr, ih]

theorem get_by_ref_insert (d : Dom) (parent : Nat) (b : Inst) (hwf : DomWF d) (r : Nat) :
    get_by_ref (d.insert parent b).1 r =
      if r = d.nextRef then some b
      else (get_by_ref d r).map (fun i => if r = parent then addChild i d.nextRef else i) := by
  unfold Dom.insert get_by_ref
  rw [lookupRef_append, lookupRef_mapAdd]
  by_cases hr : r = d.nextRef
  · subst hr
    rw [lookupRef_fresh_none d hwf]
    simp [lookupRef]
  · cases h : lookupRef d.insts r with
    | some i => simp [hr]
    | none => simp [lookupRef, hr, Ne.symm hr]

theorem insert_nextRef (d : Dom) (parent : Nat) (b : Inst) :
    (d.insert parent b).1.nextRef = d.nextRef + 1 := rfl

theorem insert_ref (d : Dom) (parent : Nat) (b : Inst) :
    (d.insert parent b).2 = d.nextRef := rfl

theorem insert_wf (d : Dom) (parent : Nat) (b : Inst) (hwf : DomWF d) :
    DomWF (d.insert parent b).1 := by
  intro p hp
  unfold Dom.insert at hp
  rw [insert_nextRef]
  simp only [List.mem_append, List.mem_map, List.mem_singleton] at hp
  rcases hp with ⟨q, hq, rfl⟩ | rfl
  · have hlt := hwf q hq
    by_cases h : q.1 = parent <;> simp [h] <;> omega
  · simp

theorem get_insert_self (d : Dom) (parent : Nat) (b : Inst) (hwf : DomWF d) :
    get_by_ref (d.insert parent b).1 d.nextRef = some b := by
  rw [get_by_ref_insert d parent b hwf]
  simp

theorem get_insert_parent (d : Dom) (parent : Nat) (b : Inst) (p : Inst) (hwf : DomWF d)
    (hp : get_by_ref d parent = some p) :
    get_by_ref (d.insert parent b).1 parent = some (addChild p d.nextRef) := by
  have hlt : parent < d.nextRef := key_lt_of_get d parent p hwf hp
  rw [get_by_ref_insert d parent b hwf]
  simp [hp, Nat.ne_of_lt hlt]

theorem get_insert_other (d : Dom) (parent : Nat) (b : Inst) (r : Nat) (i : Inst)
    (hwf : DomWF d) (hr : get_by_ref d r = some i) (hne : r ≠ parent) :
    get_by_ref (d.insert parent b).1 r = some i := by
  have hlt : r < d.nextRef := key_lt_of_get d r i hwf hr
  rw [get_by_ref_insert d parent b hwf]
  simp [hr, hne, Nat.ne_of_lt hlt]

theorem instLE_refl (i : Inst) : InstLE i i :=
  ⟨rfl, rfl, rfl, [], by simp⟩

theorem instLE_trans (a b c : Inst) (h1 : InstLE a b) (h2 : InstLE b c) : InstLE a c := by
  obtain ⟨hc1, hn1, hp1, t1, ht1⟩ := h1
  obtain ⟨hc2, hn2, hp2, t2, ht2⟩ := h2
  exact ⟨hc2.trans hc1, hn2.trans hn1, hp2.trans hp1, t1 ++ t2, by simp [ht2, ht1]⟩

theorem domExtends_refl (d : Dom) : DomExtends d d :=
  ⟨le_refl _, fun _ i h => ⟨i, h, instLE_refl i⟩⟩

theorem domExtends_trans (d3 d2 d1 : Dom) (h32 : DomExtends d3 d2) (h21 : DomExtends d2 d1) :
    DomExtends d3 d1 := by
  refine ⟨le_trans h21.1 h32.1, fun r i h => ?_⟩
  obtain ⟨i2, h2, hle2⟩ := h21.2 r i h
  obtain ⟨i3, h3, hle3⟩ := h32.2 r i2 h2
  exact ⟨i3, h3, instLE_trans i i2 i3 hle2 hle3⟩

theorem insert_extends (d : Dom) (parent : Nat) (b : Inst) (hwf : DomWF d) :
    DomExtends (d.insert parent b).1 d := by
  refine ⟨by rw [insert_nextRef]; omega, fun r i h => ?_⟩
  by_cases hpar : r = parent
  · subst hpar
    exact ⟨addChild i d.nextRef,
      get_insert_parent d r b i hwf h,
      ⟨rfl, rfl, rfl, [d.nextRef], rfl⟩⟩
  · exact ⟨i, get_insert_other d parent b r i hwf h hpar, instLE_refl i⟩

/-! ## Monotonicity of the add phase -/

theorem add_instance_extends (d : Dom) (j : JsonInstance) (parent : Nat) (hwf : DomWF d) :
    DomExtends (add_instance_to_weakdom d j parent).1 d ∧
    DomWF (add_instance_to_weakdom d j parent).1 := by
  unfold add_instance_to_weakdom
  cases h : buildProps (isScript j.className) j.properties with
  | ok ps =>
    simpa using ⟨insert_extends d parent ⟨j.className, j.name, ps, []⟩ hwf,
                 insert_wf d parent ⟨j.className, j.name, ps, []⟩ hwf⟩
  | err e => exact ⟨domExtends_refl d, hwf⟩
  | panicked e => exact ⟨domExtends_refl d, hwf⟩

mutual
theorem process_extends (d : Dom) (j : JsonInstance) (parent : Nat) (hwf : DomWF d) :
    DomExtends (process_instance_with_children d j parent).1 d ∧
    DomWF (process_instance_with_children d j parent).1 := by
  unfold process_instance_with_children
  split
  next d' r hA =>
    have h1 := add_instance_extends d j parent hwf
    rw [hA] at h1
    have h2 := processChildren_extends d' j.children r h1.2
    split
    next d'' a hB =>
      rw [hB] at h2
      exact ⟨domExtends_trans d'' d' d h2.1 h1.1, h2.2⟩
    next d'' e hB =>
      rw [hB] at h2
      exact ⟨domExtends_trans d'' d' d h2.1 h1.1, h2.2⟩
    next d'' e hB =>
      rw [hB] at h2
      exact ⟨domExtends_trans d'' d' d h2.1 h1.1, h2.2⟩
  next d' e hA =>
    have h1 := add_instance_extends d j parent hwf
    rw [hA] at h1
    exact h1
  next d' e hA =>
    have h1 := add_instance_extends d j parent hwf
    rw [hA] at h1
    exact h1
termination_by sizeOf j
decreasing_by cases j; simp [JsonInstance.children]; omega

theorem processChildren_extends (d : Dom) (cs : List JsonInstance) (parent : Nat)
    (hwf : DomWF d) :
    DomExtends (processChildren d cs parent).1 d ∧ DomWF (processChildren d cs parent).1 := by
  cases cs with
  | nil =>
    simp only [processChildren]
    exact ⟨domExtends_refl d, hwf⟩
  | cons c rest =>
    simp only [processChildren]
    have h1 := process_extends d c parent hwf
    split
    next d' a hA =>
      rw [hA] at h1
      have h2 := processChildren_extends d' rest parent h1.2
      exact ⟨domExtends_trans _ d' d h2.1 h1.1, h2.2⟩
    next d' e hA =>
      rw [hA] at h1
      exact h1
    next d' e hA =>
      rw [hA] at h1
      exact h1
termination_by sizeOf cs
decreasing_by all_goals (simp; try omega)
end

theorem applyAdds_extends (d : Dom) (root : Nat) (refs : List (String × Nat)) (ws : Nat)
    (l : List JsonInstance) (hwf : DomWF d) :
    DomExtends (applyAdds d root refs ws l).1 d ∧ DomWF (applyAdds d root refs ws l).1 := by
  induction l generalizing d with
  | nil => exact ⟨domExtends_refl d, hwf⟩
  | cons j rest ih =>
    simp only [applyAdds]
    have h1 := process_extends d j (effectiveParent d root refs ws j) hwf
    split
    next d' a hA =>
      rw [hA] at h1
      have h2 := ih d' h1.2
      exact ⟨domExtends_trans _ d' d h2.1 h1.1, h2.2⟩
    next d' e hA =>
      rw [hA] at h1
      exact h1
    next d' e hA =>
      rw [hA] at h1
      exact h1

theorem applyAdds_single (d : Dom) (root : Nat) (refs : List (String × Nat)) (ws : Nat)
    (j : JsonInstance) :
    (applyAdds d root refs ws [j]).1 =
      (process_instance_with_children d j (effectiveParent d root refs ws j)).1 := by
  simp only [applyAdds]
  split
  next d' a hA => simp [applyAdds, hA]
  next d' e hA => simp [hA]
  next d' e hA => simp [hA]

theorem process_inserts_child (d : Dom) (j : JsonInstance) (parent : Nat) (p : Inst)
    (ps : List (String × Variant)) (hwf : DomWF d)
    (hp : get_by_ref d parent = some p)
    (hok : buildProps (isScript j.className) j.properties = .ok ps) :
    d.nextRef ∈ (getInst (process_instance_with_children d j parent).1 parent).children := by
  unfold process_instance_with_children
  have hAdd : add_instance_to_weakdom d j parent =
      ((d.insert parent ⟨j.className, j.name, ps, []⟩).1, .ok d.nextRef) := by
    unfold add_instance_to_weakdom
    rw [hok]
    rfl
  simp only [hAdd]
  have hwf' : DomWF (d.insert parent ⟨j.className, j.name, ps, []⟩).1 :=
    insert_wf d parent _ hwf
  have hpar' : get_by_ref (d.insert parent ⟨j.className, j.name, ps, []⟩).1 parent =
      some (addChild p d.nextRef) :=
    get_insert_parent d parent _ p hwf hp
  have hext := processChildren_extends (d.insert parent ⟨j.className, j.name, ps, []⟩).1
    j.children d.nextRef hwf'
  split
  next d'' a hB =>
    rw [hB] at hext
    obtain ⟨i', hi', hle⟩ := hext.1.2 parent _ hpar'
    obtain ⟨-, -, -, t, ht⟩ := hle
    have hmem : d.nextRef ∈ i'.children := by
      rw [ht]
      exact List.mem_append_left _ (by simp [addChild])
    simp [getInst, hi', hmem]
  next d'' e hB =>
    rw [hB] at hext
    obtain ⟨i', hi', hle⟩ := hext.1.2 parent _ hpar'
    obtain ⟨-, -, -, t, ht⟩ := hle
    have hmem : d.nextRef ∈ i'.children := by
      rw [ht]
      exact List.mem_append_left _ (by simp [addChild])
    simp [getInst, hi', hmem]
  next d'' e hB =>
    rw [hB] at hext
    obtain ⟨i', hi', hle⟩ := hext.1.2 parent _ hpar'
    obtain ⟨-, -, -, t, ht⟩ := hle
    have hmem : d.nextRef ∈ i'.children := by
      rw [ht]
      exact List.mem_append_left _ (by simp [addChild])
    simp [getInst, hi', hmem]

/-! ## Lemmas about the provisioner scan -/

theorem findServiceChildE_insert (d : Dom) (parent : Nat) (b : Inst) (cs : List Nat)
    (name : String) (hwf : DomWF d) (h : findServiceChildE d cs name = .ok none) :
    findServiceChildE (d.insert parent b).1 cs name = .ok none := by
  induction cs with
  | nil => simp [findServiceChildE]
  | cons c rest ih =>
    simp only [findServiceChildE] at h ⊢
    cases hc : get_by_ref d c with
    | none => simp [hc] at h
    | some i =>
      simp only [hc] at h
      by_cases hn : i.name = name
      · rw [if_pos hn] at h
        exact absurd h (by simp)
      · rw [if_neg hn] at h
        have hlt : c < d.nextRef := key_lt_of_get d c i hwf hc
        have hc' : get_by_ref (d.insert parent b).1 c =
            some (if c = parent then addChild i d.nextRef else i) := by
          rw [get_by_ref_insert d parent b hwf]
          simp [hc, Nat.ne_of_lt hlt]
        simp only [hc']
        have hn' : (if c = parent then addChild i d.nextRef else i).name = i.name := by
          split <;> simp [addChild]
        rw [hn', if_neg hn]
        exact ih h

theorem findServiceChildE_append_none (d : Dom) (cs1 cs2 : List Nat) (name : String)
    (h : findServiceChildE d cs1 name = .ok none) :
    findServiceChildE d (cs1 ++ cs2) name = findServiceChildE d cs2 name := by
  induction cs1 with
  | nil => simp [findServiceChildE]
  | cons c rest ih =>
    simp only [findServiceChildE, List.cons_append] at h ⊢
    cases hc : get_by_ref d c with
    | none => simp [hc] at h
    | some i =>
      simp only [hc] at h ⊢
      by_cases hn : i.name = name
      · rw [if_pos hn] at h
        exact absurd h (by simp)
      · rw [if_neg hn] at h ⊢
        exact ih h

/-! ## Codec dispatch lemmas -/

theorem decodeVariant_int (v : JValue) : decodeVariant "Int" v = decodeInt v := rfl

theorem decodeVariant_enum (v : JValue) : decodeVariant "Enum" v = decodeEnum v := rfl

theorem decodeVariant_brickColor (v : JValue) :
    decodeVariant "BrickColor" v = decodeBrickColor v := rfl

theorem decodeVariant_cframe (v : JValue) :
    decodeVariant "CFrame" v = decodeCFrame v := rfl

theorem decodeVariant_unknown (tag : String) (h : tag ∉ supportedTags) (v : JValue) :
    decodeVariant tag v = DecodeResult.skip := by
  simp only [supportedTags, List.mem_cons, List.not_mem_nil, or_false, not_or] at h
  obtain ⟨h1, h2, h3, h4, h5, h6, h7, h8, h9, h10, h11, h12, h13⟩ := h
  simp [decodeVariant, h1, h2, h3, h4, h5, h6, h7, h8, h9, h10, h11, h12, h13]

theorem rotationDefaulted_identity (rv : Option JValue) (h : rotationDefaulted rv) :
    decodeRotation rv = Matrix3.identity := by
  cases rv with
  | none => rfl
  | some rval =>
    unfold decodeRotation
    unfold rotationDefaulted at h
    cases ha : rval.as_array with
    | none => simp [ha]
    | some arr =>
      simp only [ha] at h
      simp [ha, h]

theorem rootWsDom_wf : DomWF rootWsDom := by
  unfold DomWF
  decide

theorem afterHouseRoot_wf : DomWF afterHouseRoot := by
  unfold DomWF
  decide

/-! ## The claims -/

/-- C1 (code bug): the spec says a leading "DataModel" sentinel is consumed
and resolution continues with the remaining segments, so resolving
"DataModel/Workspace" from the root of `rootWsDom` should return the child
named "Workspace" (reference 1, as `find_service` does).  The code instead
slices `path_parts[2..]`, silently dropping a second segment, and returns
the root itself (reference 0) — contradicting its own comment "skip it and
use start_id".  A three-segment prefixed path looks up the third segment
directly under the root and here fails entirely. -/
theorem c1_datamodel_prefix_code_bug :
    find_instance_by_path rootWsDom 0 "DataModel/Workspace" = some 0 ∧
    find_service rootWsDom 0 "Workspace" = some 1 ∧
    find_instance_by_path rootWsDom 0 "DataModel/Workspace/House" = none := by
  refine ⟨by decide, by decide, by decide⟩

/-- C2 (code bug): the spec says the applier never panics on malformed input
data, but decoding an `Enum` property whose numeric value does not fit in 32
bits reaches `as_u64().unwrap_or(1).try_into().unwrap()`, and the `unwrap`
aborts the process; the abort propagates through the property-building
loop instead of surfacing as a returned error. -/
theorem c2_enum_panic_code_bug :
    decodeProperty false "Material" ⟨"Enum", .num (.posInt (2 ^ 32))⟩ =
      .panicked "out of range integral type conversion attempted" ∧
    buildProps false [("Material", ⟨"Enum", .num (.posInt (2 ^ 32))⟩)] =
      .panicked "out of range integral type conversion attempted" := by
  refine ⟨by decide, by decide⟩

/-- C3 counterexample: the claim says an `Int` property with JSON value 2.7
decodes to the truncated 32-bit integer 2; the code's `as_i64()` returns
`None` for every float-represented JSON number, so 2.7 decodes to the
`unwrap_or(0)` default 0, not 2. -/
theorem c3_int_truncation_counterexample :
    decodeVariant "Int" (.num (.float (27 / 10))) = .ok (.int32 0) ∧
    DecodeResult.ok (.int32 0) ≠ .ok (.int32 2) := by
  refine ⟨by decide, by decide⟩

/-- C3 (amended): for type tag "Int"/"Int32", a non-number value is an
error; a number represented as a float decodes to 0 (not to its truncation);
an unsigned integer within the signed 64-bit range decodes to its
two's-complement 32-bit wrap, an unsigned integer beyond that range decodes
to 0, and a negative integer decodes to its two's-complement 32-bit wrap. -/
theorem c3_int_decode_amended :
    (∀ v : JValue, (∀ n : JNum, v ≠ JValue.num n) →
       decodeVariant "Int" v = .error "Int must be a numeric value") ∧
    (∀ q : ℚ, decodeVariant "Int" (.num (.float q)) = .ok (.int32 0)) ∧
    (∀ n : Nat, n ≤ i64max →
       decodeVariant "Int" (.num (.posInt n)) =
         .ok (.int32 (((n : Int) + 2 ^ 31) % 2 ^ 32 - 2 ^ 31))) ∧
    (∀ n : Nat, i64max < n →
       decodeVariant "Int" (.num (.posInt n)) = .ok (.int32 0)) ∧
    (∀ i : Int, decodeVariant "Int" (.num (.negInt i)) =
       .ok (.int32 ((i + 2 ^ 31) % 2 ^ 32 - 2 ^ 31))) := by
  refine ⟨?_, ?_, ?_, ?_, ?_⟩
  · intro v hv
    rw [decodeVariant_int]
    cases v with
    | num n => exact absurd rfl (hv n)
    | null => rfl
    | bool b => rfl
    | str s => rfl
    | arr xs => rfl
    | obj fs => rfl
  · intro q
    rfl
  · intro n hn
    rw [decodeVariant_int]
    simp [decodeInt, JNum.as_i64, hn, i64_as_i32]
  · intro n hn
    rw [decodeVariant_int]
    simp [decodeInt, JNum.as_i64, Nat.not_le.mpr hn, i64_as_i32]
  · intro i
    rw [decodeVariant_int]
    simp [decodeInt, JNum.as_i64, i64_as_i32]

/-- Witness for C3 (amended) at concrete inputs: a string errors, 5 decodes
to 5, and -7 decodes to -7. -/
theorem c3_int_decode_amended_witness :
    decodeVariant "Int" (.str "x") = .error "Int must be a numeric value" ∧
    decodeVariant "Int" (.num (.posInt 5)) = .ok (.int32 5) ∧
    decodeVariant "Int" (.num (.negInt (-7))) = .ok (.int32 (-7)) := by
  refine ⟨c3_int_decode_amended.1 (.str "x") (fun n h => JValue.noConfusion h), ?_, ?_⟩
  · exact (c3_int_decode_amended.2.2.1 5 (by decide)).trans (by decide)
  · exact (c3_int_decode_amended.2.2.2.2 (-7)).trans (by decide)

/-- C4 counterexample: on a `Script` instance, a property named "Source"
whose type tag is outside the supported set but whose value is a string is
NOT skipped — the `Source` special case fires before the tag dispatch and
adds the property. -/
theorem c4_source_override_counterexample :
    "CustomTag" ∉ supportedTags ∧
    decodeProperty (isScript "Script") "Source" ⟨"CustomTag", .str "print(1)"⟩ =
      .ok (.str "print(1)") := by
  refine ⟨by decide, by decide⟩

/-- C4 (amended): a property whose type tag is outside the supported set is
silently skipped (never an error) — except that on Script/LocalScript/
ModuleScript instances a property named "Source" whose JSON value is a
string is added as a String property regardless of its tag. -/
theorem c4_unknown_tag_amended (tag : String) (h : tag ∉ supportedTags)
    (is_script : Bool) (pname : String) (v : JValue) :
    (∃ s, v.as_str = some s ∧ is_script = true ∧ pname = "Source" ∧
       decodeProperty is_script pname ⟨tag, v⟩ = .ok (.str s)) ∨
    decodeProperty is_script pname ⟨tag, v⟩ = .skip := by
  cases hs : sourceOverride is_script pname v with
  | some s =>
    left
    have hdp : decodeProperty is_script pname ⟨tag, v⟩ = .ok (.str s) := by
      unfold decodeProperty
      simp only [hs]
    unfold sourceOverride at hs
    by_cases hc : (is_script = true) ∧ pname = "Source"
    · rw [if_pos (by simpa using hc)] at hs
      exact ⟨s, hs, hc.1, hc.2, hdp⟩
    · rw [if_neg (by simpa using hc)] at hs
      exact absurd hs (by simp)
  | none =>
    right
    unfold decodeProperty
    simp only [hs]
    exact decodeVariant_unknown tag h v

/-- Witness for C4 (amended): the `Source` exception at a concrete input. -/
theorem c4_unknown_tag_amended_witness :
    (∃ s, (JValue.str "x").as_str = some s ∧ true = true ∧ "Source" = "Source" ∧
       decodeProperty true "Source" ⟨"Whatever", .str "x"⟩ = .ok (.str s)) ∨
    decodeProperty true "Source" ⟨"Whatever", .str "x"⟩ = .skip :=
  c4_unknown_tag_amended "Whatever" (by decide) true "Source" (.str "x")

/-- C5 (confirmed): for a `CFrame` property whose value is a JSON object —
no "position" key is an error; a position accepted by the position parser
decodes successfully with that position (never an error, whatever the
rotation looks like); and whenever the "rotation" key is absent, not an
array, or an array of length other than 9, the rotation is the identity
matrix. -/
theorem c5_cframe_position_rotation (fields : List (String × JValue)) :
    (objGet fields "position" = none →
       decodeVariant "CFrame" (.obj fields) = .error "CFrame missing position") ∧
    (∀ pv pos, objGet fields "position" = some pv → decodePosition pv = .ok pos →
       ∃ rot, decodeVariant "CFrame" (.obj fields) = .ok (.cframe ⟨pos, rot⟩)) ∧
    (∀ pv pos, objGet fields "position" = some pv → decodePosition pv = .ok pos →
       rotationDefaulted (objGet fields "rotation") →
       decodeVariant "CFrame" (.obj fields) = .ok (.cframe ⟨pos, Matrix3.identity⟩)) := by
  refine ⟨?_, ?_, ?_⟩
  · intro h
    rw [decodeVariant_cframe]
    unfold decodeCFrame
    simp only [h]
  · intro pv pos h1 h2
    rw [decodeVariant_cframe]
    unfold decodeCFrame
    simp only [h1, h2]
    exact ⟨decodeRotation (objGet fields "rotation"), rfl⟩
  · intro pv pos h1 h2 h3
    rw [decodeVariant_cframe]
    unfold decodeCFrame
    simp only [h1, h2, rotationDefaulted_identity _ h3]

/-- Witness for C5: a position-only CFrame decodes to that position with the
identity rotation. -/
theorem c5_cframe_position_rotation_witness :
    decodeVariant "CFrame"
        (.obj [("position", .arr [.num (.float 1), .num (.float 2), .num (.float 3)])]) =
      .ok (.cframe ⟨⟨1, 2, 3⟩, Matrix3.identity⟩) :=
  (c5_cframe_position_rotation _).2.2 _ ⟨1, 2, 3⟩ rfl rfl trivial

/-- C10 (confirmed): a `BrickColor` property whose JSON number is not
representable as an unsigned integer (a float-represented number or a
negative integer) is not an error: `as_u64()` yields `None`, the
`unwrap_or(1)` default applies, and the property decodes to palette color
number 1. -/
theorem c10_brickcolor_nonuint_defaults (n : JNum)
    (h : (∃ q : ℚ, n = .float q) ∨ (∃ i : Int, n = .negInt i)) :
    decodeVariant "BrickColor" (.num n) = .ok (.brickColor 1) := by
  have hu : n.as_u64 = none := by
    rcases h with ⟨q, rfl⟩ | ⟨i, rfl⟩ <;> rfl
  rw [decodeVariant_brickColor]
  unfold decodeBrickColor
  simp only [hu]
  decide

/-- Witness for C10: the fractional number 5/2 decodes to palette color 1. -/
theorem c10_brickcolor_nonuint_defaults_witness :
    decodeVariant "BrickColor" (.num (.float (5 / 2))) = .ok (.brickColor 1) :=
  c10_brickcolor_nonuint_defaults (.float (5 / 2)) (Or.inl ⟨5 / 2, rfl⟩)

/-- C7 (confirmed): a subtract path that resolves to no instance leaves the
graph unchanged for that entry while the remaining subtract entries are
still processed; and one patch application runs provisioning, then the
whole subtract list, then the whole add list — every subtraction before any
addition. -/
theorem c7_missing_subtract_skipped (d : Dom) (root : Nat) (p : String)
    (rest : List String) (h : find_instance_by_path d root p = none) :
    applySubtracts d root (p :: rest) = applySubtracts d root rest ∧
    (∀ (d0 d1 : Dom) (refs : List (String × Nat)) (ws : Nat) (m : Modification),
       provision d0 root = (d1, .ok (refs, ws)) →
       json_to_weakdom d0 m root =
         applyAdds (applySubtracts d1 root m.subtract) root refs ws m.add) := by
  constructor
  · have h1 : applySubtractOne d root p = d := by
      unfold applySubtractOne
      simp only [h]
    simp only [applySubtracts]
    rw [h1]
  · intro d0 d1 refs ws m hprov
    unfold json_to_weakdom
    simp only [hprov]

/-- Witness for C7: subtracting the unresolvable path "Nope/X" first changes
nothing. -/
theorem c7_missing_subtract_skipped_witness :
    applySubtracts rootWsDom 0 ["Nope/X", "Workspace"] =
      applySubtracts rootWsDom 0 ["Workspace"] :=
  (c7_missing_subtract_skipped rootWsDom 0 "Nope/X" ["Workspace"] (by decide)).1

/-- C8 (confirmed): when `find_or_create_service` succeeds, calling it again
with the same name under the same parent returns the same reference and
leaves the graph untouched — the two calls together create at most one
child, so the provisioner never duplicates a well-known container. -/
theorem c8_find_or_create_idempotent (d d1 : Dom) (parent : Nat) (name : String)
    (r1 : Nat) (hwf : DomWF d)
    (h : find_or_create_service d parent name = (d1, Except.ok r1)) :
    find_or_create_service d1 parent name = (d1, Except.ok r1) := by
  unfold find_or_create_service at h
  cases hp : get_by_ref d parent with
  | none =>
    simp only [hp] at h
    exact absurd h (by simp)
  | some p =>
    simp only [hp] at h
    cases hf : findServiceChildE d p.children name with
    | error e =>
      simp only [hf] at h
      exact absurd h (by simp)
    | ok o =>
      cases o with
      | some c =>
        simp only [hf] at h
        have hd : d1 = d := (congrArg Prod.fst h).symm
        have h2 : Except.ok (ε := String) c = Except.ok r1 := congrArg Prod.snd h
        injection h2 with h3
        subst hd
        subst h3
        unfold find_or_create_service
        simp only [hp, hf]
      | none =>
        simp only [hf] at h
        have hd : d1 = (d.insert parent ⟨name, name, [], []⟩).1 :=
          (congrArg Prod.fst h).symm
        have h2 : Except.ok (ε := String) d.nextRef = Except.ok r1 := congrArg Prod.snd h
        injection h2 with h3
        subst hd
        subst h3
        have hpar' : get_by_ref (d.insert parent ⟨name, name, [], []⟩).1 parent =
            some (addChild p d.nextRef) :=
          get_insert_parent d parent ⟨name, name, [], []⟩ p hwf hp
        have h1 : findServiceChildE (d.insert parent ⟨name, name, [], []⟩).1
            p.children name = .ok none :=
          findServiceChildE_insert d parent ⟨name, name, [], []⟩ p.children name hwf hf
        have hself : get_by_ref (d.insert parent ⟨name, name, [], []⟩).1 d.nextRef =
            some ⟨name, name, [], []⟩ :=
          get_insert_self d parent ⟨name, name, [], []⟩ hwf
        have hscan : findServiceChildE (d.insert parent ⟨name, name, [], []⟩).1
            (addChild p d.nextRef).children name = .ok (some d.nextRef) := by
          have happ := findServiceChildE_append_none
            (d.insert parent ⟨name, name, [], []⟩).1 p.children [d.nextRef] name h1
          have hone : findServiceChildE (d.insert parent ⟨name, name, [], []⟩).1
              [d.nextRef] name = .ok (some d.nextRef) := by
            simp [findServiceChildE, hself]
          calc findServiceChildE (d.insert parent ⟨name, name, [], []⟩).1
                (addChild p d.nextRef).children name
              = findServiceChildE (d.insert parent ⟨name, name, [], []⟩).1
                (p.children ++ [d.nextRef]) name := rfl
            _ = .ok (some d.nextRef) := happ.trans hone
        unfold find_or_create_service
        simp only [hpar', hscan]

/-- Witness for C8: creating "Lighting" under the root of the two-node graph
and asking again returns the same reference with no further change. -/
theorem c8_find_or_create_idempotent_witness :
    find_or_create_service afterLighting 0 "Lighting" = (afterLighting, Except.ok 2) :=
  c8_find_or_create_idempotent rootWsDom afterLighting 0 "Lighting" 2 rootWsDom_wf rfl

/-- C9 (confirmed): the add phase never rolls back a committed insertion.
Three commit points, matching the claim's enumeration: (1) earlier add
descriptions — once a top-level description has fully materialized (graph
`d1`), the final graph of the whole add phase extends `d1` whatever happens
to the remaining descriptions, and an error from the remainder is the error
returned for the whole phase; (2) ancestors of the failing node — once a
description's own instance has been inserted (graph `d1`), the graph after
processing that description extends `d1` even when a child's property
decode fails; (3) earlier siblings of the failing node — once one child
subtree has been fully processed (graph `d1`), the graph after the whole
child loop extends `d1` even when a later sibling fails.  `DomExtends`
preserves every committed instance with its class, name and properties
intact, children only appended. -/
theorem c9_no_rollback (d : Dom) (root : Nat) (refs : List (String × Nat)) (ws : Nat)
    (hwf : DomWF d) :
    (∀ (a : JsonInstance) (rest : List JsonInstance) (d1 : Dom) (r1 : Nat),
       process_instance_with_children d a (effectiveParent d root refs ws a) =
         (d1, RResult.ok r1) →
       DomExtends (applyAdds d root refs ws (a :: rest)).1 d1 ∧
       (∀ e, (applyAdds d1 root refs ws rest).2 = RResult.err e →
          (applyAdds d root refs ws (a :: rest)).2 = RResult.err e)) ∧
    (∀ (j : JsonInstance) (parent : Nat) (d1 : Dom) (r : Nat),
       add_instance_to_weakdom d j parent = (d1, RResult.ok r) →
       DomExtends (process_instance_with_children d j parent).1 d1) ∧
    (∀ (c : JsonInstance) (rest : List JsonInstance) (parent : Nat) (d1 : Dom) (r : Nat),
       process_instance_with_children d c parent = (d1, RResult.ok r) →
       DomExtends (processChildren d (c :: rest) parent).1 d1) := by
  refine ⟨?_, ?_, ?_⟩
  · intro a rest d1 r1 h
    have hstep : applyAdds d root refs ws (a :: rest) = applyAdds d1 root refs ws rest := by
      simp only [applyAdds, h]
    have hwf1 : DomWF d1 := by
      have hw := (process_extends d a (effectiveParent d root refs ws a) hwf).2
      rw [h] at hw
      exact hw
    refine ⟨?_, ?_⟩
    · rw [hstep]
      exact (applyAdds_extends d1 root refs ws rest hwf1).1
    · intro e he
      rw [hstep, he]
  · intro j parent d1 r h
    have hwf1 : DomWF d1 := by
      have hw := (add_instance_extends d j parent hwf).2
      rw [h] at hw
      exact hw
    have h2 := processChildren_extends d1 j.children r hwf1
    unfold process_instance_with_children
    simp only [h]
    split
    next d2 a2 hB =>
      rw [hB] at h2
      exact h2.1
    next d2 e hB =>
      rw [hB] at h2
      exact h2.1
    next d2 e hB =>
      rw [hB] at h2
      exact h2.1
  · intro c rest parent d1 r h
    have hwf1 : DomWF d1 := by
      have hw := (process_extends d c parent hwf).2
      rw [h] at hw
      exact hw
    simp only [processChildren, h]
    exact (processChildren_extends d1 rest parent hwf1).1

/-- Witness for C9: processing the description "House" (children: a good
"Wall" part, then a part with a malformed Bool property) fails at the second
child only after "House" and "Wall" were inserted — the graph with the
"House" root (ancestor of the failing node) and the graph with the "Wall"
subtree (earlier sibling) both survive; so does the fully materialized
"Base" description preceding a failing one in an add list. -/
theorem c9_no_rollback_witness :
    DomExtends (process_instance_with_children rootWsDom houseWithBadChild 1).1
      afterHouseRoot ∧
    DomExtends (processChildren afterHouseRoot [wallChildInstance, badBoolInstance] 2).1
      afterWall ∧
    DomExtends (applyAdds rootWsDom 0 [("Workspace", 1)] 1
        [plainPartInstance, badBoolInstance]).1 afterPlainPart := by
  refine ⟨?_, ?_, ?_⟩
  · exact (c9_no_rollback rootWsDom 0 [("Workspace", 1)] 1 rootWsDom_wf).2.1
      houseWithBadChild 1 afterHouseRoot 2 rfl
  · refine (c9_no_rollback afterHouseRoot 0 [("Workspace", 1)] 1 afterHouseRoot_wf).2.2
      wallChildInstance [badBoolInstance] 2 afterWall 3 ?_
    unfold afterWall
    refine Prod.ext rfl ?_
    simp [process_instance_with_children, processChildren, add_instance_to_weakdom,
          buildProps, isScript, wallChildInstance, houseWithBadChild, afterHouseRoot,
          Dom.insert, rootWsDom, JsonInstance.className, JsonInstance.properties,
          JsonInstance.children, JsonInstance.target_parent]
  · refine ((c9_no_rollback rootWsDom 0 [("Workspace", 1)] 1 rootWsDom_wf).1
      plainPartInstance [badBoolInstance] afterPlainPart 2 ?_).1
    unfold afterPlainPart
    refine Prod.ext rfl ?_
    simp [process_instance_with_children, processChildren, add_instance_to_weakdom,
          buildProps, isScript, plainPartInstance, effectiveParent, Dom.insert,
          rootWsDom, JsonInstance.className, JsonInstance.properties,
          JsonInstance.children, JsonInstance.target_parent]

/-- C6 (confirmed): for an add description whose own properties decode, the
effective parent is the service-table entry when `target_parent` equals a
provisioned container name exactly; when `target_parent` is present but
matches no container and its path resolution from the root fails, the
instance is placed under the Workspace default and (for a childless
description) the add succeeds rather than failing; when `target_parent` is
absent the instance likewise goes under Workspace.  In each case the fresh
instance is linked as a direct child of the selected parent. -/
theorem c6_target_parent_fallback (d : Dom) (root ws : Nat) (refs : List (String × Nat))
    (j : JsonInstance) (ps : List (String × Variant)) (hwf : DomWF d)
    (hok : buildProps (isScript j.className) j.properties = .ok ps) :
    (∀ t r p, j.target_parent = some t → lookupAssoc refs t = some r →
       get_by_ref d r = some p →
       d.nextRef ∈ (getInst (applyAdds d root refs ws [j]).1 r).children) ∧
    (∀ t w, j.target_parent = some t → lookupAssoc refs t = none →
       find_instance_by_path d root t = none → get_by_ref d ws = some w →
       d.nextRef ∈ (getInst (applyAdds d root refs ws [j]).1 ws).children ∧
       (j.children = [] → (applyAdds d root refs ws [j]).2 = RResult.ok ())) ∧
    (∀ w, j.target_parent = none → get_by_ref d ws = some w →
       d.nextRef ∈ (getInst (applyAdds d root refs ws [j]).1 ws).children) := by
  refine ⟨?_, ?_, ?_⟩
  · intro t r p ht hl hr
    have hep : effectiveParent d root refs ws j = r := by
      unfold effectiveParent
      simp only [ht, hl]
    rw [applyAdds_single, hep]
    exact process_inserts_child d j r p ps hwf hr hok
  · intro t w ht hl hf hw
    have hep : effectiveParent d root refs ws j = ws := by
      unfold effectiveParent
      simp only [ht, hl, hf]
    constructor
    · rw [applyAdds_single, hep]
      exact process_inserts_child d j ws w ps hwf hw hok
    · intro hch
      have hAdd : add_instance_to_weakdom d j ws =
          ((d.insert ws ⟨j.className, j.name, ps, []⟩).1, .ok d.nextRef) := by
        unfold add_instance_to_weakdom
        rw [hok]
        rfl
      have hproc : process_instance_with_children d j (effectiveParent d root refs ws j) =
          ((d.insert ws ⟨j.className, j.name, ps, []⟩).1, RResult.ok d.nextRef) := by
        rw [hep]
        unfold process_instance_with_children
        simp only [hAdd, hch, processChildren]
      simp only [applyAdds, hproc]
  · intro w ht hw
    have hep : effectiveParent d root refs ws j = ws := by
      unfold effectiveParent
      simp only [ht]
    rw [applyAdds_single, hep]
    exact process_inserts_child d j ws w ps hwf hw hok

/-- Witness for C6: the unresolvable target "Workspace/House" falls back to
Workspace (reference 1): the new instance (reference 2) is a child of
Workspace and the add succeeds. -/
theorem c6_target_parent_fallback_witness :
    2 ∈ (getInst (applyAdds rootWsDom 0 [("Workspace", 1)] 1 [houseTargetInstance]).1 1).children ∧
    (applyAdds rootWsDom 0 [("Workspace", 1)] 1 [houseTargetInstance]).2 = RResult.ok () := by
  have h := (c6_target_parent_fallback rootWsDom 0 1 [("Workspace", 1)]
      houseTargetInstance [] rootWsDom_wf rfl).2.1
      "Workspace/House" ⟨"Workspace", "Workspace", [], []⟩ rfl (by decide) (by decide) rfl
  exact ⟨h.1, h.2 rfl⟩

end Rbx
